import Mathlib

/-!
Verification development for the Git-Diff-Exporter repository.

The definitions below are a shallow embedding of the Python sources:
- `src/git_engine.py` (diff-stream parser, content retrieval, submodule
  resolution),
- `src/file_manager.py` (per-file write bookkeeping),
- `src/gui_window.py` (the extraction worker `_copy_files_worker`,
  `_process_diff_files` and `_process_submodule`).

External effects (running the git executable, writing files) are modelled
by explicit oracles: a fetch oracle maps a revision and path to the raw
outcome of the spawned process, and a write oracle maps a target path to
an optional failure message.  Byte strings are modelled as `List Nat`.
-/

namespace GitDiffExporter

/-- Mirror of `git_engine.DiffEntry`: raw status character, the two paths
and the similarity percentage (0 by default, as in the dataclass). -/
structure DiffEntry where
  status : Char
  old_path : String
  new_path : String
  similarity : Nat := 0
deriving DecidableEq, Repr

/-- Value of a nonempty digit string, as Python `int` computes it for the
similarity group of the rename/copy regex. -/
def digitsVal (l : List Char) : Nat :=
  l.foldl (fun acc c => acc * 10 + (c.toNat - 48)) 0

/-- Mirror of `re.match(r'^([RC])(\d+)$', status_line)` in
`GitEngine.get_diff_entries`: the whole token must be `R` or `C` followed
by at least one digit; on success the similarity value is returned. -/
def matchRC (s : String) : Option Nat :=
  match s.data with
  | [] => none
  | c :: rest =>
    if (c = 'R' ∨ c = 'C') ∧ rest ≠ [] ∧ rest.all (fun d => d.isDigit) then
      some (digitsVal rest)
    else none

/-- Split a character list at every occurrence of `sep`, exactly like
Python `str.split(sep)` for a one-character separator (keeps empty
pieces, `"" ↦ [""]`). -/
def splitOnCharAux (sep : Char) : List Char → List Char → List String
  | [], acc => [String.mk acc.reverse]
  | c :: cs, acc =>
    if c = sep then String.mk acc.reverse :: splitOnCharAux sep cs []
    else splitOnCharAux sep cs (c :: acc)

/-- Python `s.split(sep)` for a one-character separator. -/
def splitOnChar (sep : Char) (s : String) : List String :=
  splitOnCharAux sep s.data []

/-- Mirror of `content.split('\x00')` in `GitEngine.get_diff_entries`. -/
def tokenize (content : String) : List String :=
  splitOnChar '\x00' content

/-- Mirror of the token loop of `GitEngine.get_diff_entries`, written by
recursion on the unscanned suffix of the token list (the Python loop scans
by an index `i` into the immutable token list and each iteration strictly
increases `i`, so the suffix form is the same computation):
an empty token is skipped; a status token with no following token breaks;
an empty path token is skipped; a status token whose first character is
`R` or `C` and that matches `^[RC]\d+$` consumes a second path token when
one is available; every other status token consumes one path token. -/
def parseTokens : List String → List DiffEntry
  | [] => []
  | statusLine :: rest =>
    if statusLine = "" then parseTokens rest
    else
      match rest with
      | [] => []
      | filePath :: rest2 =>
        if filePath = "" then parseTokens rest2
        else
          let status := statusLine.front
          if status = 'R' ∨ status = 'C' then
            match matchRC statusLine with
            | some sim =>
              match rest2 with
              | [] => [⟨status, filePath, filePath, sim⟩]
              | newPath :: rest3 =>
                ⟨status, filePath, newPath, sim⟩ :: parseTokens rest3
            | none => ⟨status, filePath, filePath, 0⟩ :: parseTokens rest2
          else ⟨status, filePath, filePath, 0⟩ :: parseTokens rest2

/-- Mirror of `GitEngine.get_diff_entries` applied to the raw stdout of
`git diff --name-status -z old new`: an empty stream yields no entries,
otherwise the NUL-separated tokens are scanned by the loop above. -/
def getDiffEntries (content : String) : List DiffEntry :=
  if content = "" then [] else parseTokens (tokenize content)

/-- Fuel-indexed form of the Python `while i < len(parts)` loop of
`GitEngine.get_diff_entries`, faithful to the index-based scan: `i` is the
scan index into `parts`, one unit of fuel is spent per loop iteration, and
`none` is returned if fuel runs out while `i < len(parts)`. -/
def parseLoopFuel : Nat → List String → Nat → Option (List DiffEntry)
  | 0, parts, i => if i < parts.length then none else some []
  | fuel + 1, parts, i =>
    if i < parts.length then
      let statusLine := parts.getD i ""
      if statusLine = "" then parseLoopFuel fuel parts (i + 1)
      else if i + 1 < parts.length then
          let filePath := parts.getD (i + 1) ""
          if filePath = "" then parseLoopFuel fuel parts (i + 2)
          else
            let status := statusLine.front
            if status = 'R' ∨ status = 'C' then
              match matchRC statusLine with
              | some sim =>
                if i + 2 < parts.length then
                  (parseLoopFuel fuel parts (i + 3)).map
                    (fun l => ⟨status, filePath, parts.getD (i + 2) "", sim⟩ :: l)
                else
                  (parseLoopFuel fuel parts (i + 2)).map
                    (fun l => ⟨status, filePath, filePath, sim⟩ :: l)
              | none =>
                (parseLoopFuel fuel parts (i + 2)).map
                  (fun l => ⟨status, filePath, filePath, 0⟩ :: l)
            else
              (parseLoopFuel fuel parts (i + 2)).map
                (fun l => ⟨status, filePath, filePath, 0⟩ :: l)
      else some []
    else some []

/-! ### Content retrieval (`GitEngine.get_file_content`) -/

/-- Byte strings (Python `bytes`) are modelled as lists of byte values. -/
abbrev Bytes := List Nat

/-- Boolean test that `needle` is a leading run of `hay`. -/
def leadChars : List Char → List Char → Bool
  | [], _ => true
  | _ :: _, [] => false
  | a :: as, b :: bs => a = b && leadChars as bs

/-- Boolean test that `needle` occurs contiguously inside `hay`. -/
def subChars (needle : List Char) : List Char → Bool
  | [] => needle.isEmpty
  | c :: cs => leadChars needle (c :: cs) || subChars needle cs

/-- Python `needle in hay` on strings. -/
def strIn (needle hay : String) : Bool :=
  subChars needle.data hay.data

/-- The substring test of `GitEngine.get_file_content`'s except clause:
`'does not exist' in str(e) or 'fatal: path' in str(e) or
'invalid object' in str(e)`. -/
def isNotFoundMsg (msg : String) : Bool :=
  strIn "does not exist" msg || strIn "fatal: path" msg || strIn "invalid object" msg

/-- Mirror of `GitEngine.get_file_content(sha, file_path)` given the raw
outcome of the spawned `git show sha:file_path` process: on success the
captured stdout bytes are returned (`result.stdout if result.stdout else
b''` is the identity on byte strings, written out literally); a failure
whose message reports a missing path becomes empty bytes; every other
failure is re-raised wrapped with the path and the original cause. -/
def get_file_content (file_path : String) (runResult : Except String Bytes) :
    Except String Bytes :=
  match runResult with
  | .ok stdout => .ok (if stdout = [] then [] else stdout)
  | .error e =>
    if isNotFoundMsg e then .ok []
    else .error ("获取文件内容失败 " ++ file_path ++ ": " ++ e)

/-! ### Submodule resolution (`GitEngine.get_submodule_info`) -/

/-- The whitespace characters Python `str.split()` / `str.strip()` use. -/
def isPySpace (c : Char) : Bool :=
  c = ' ' || c = '\t' || c = '\n' || c = '\r' || c = '\x0b' || c = '\x0c'

/-- Python `s.strip()`. -/
def pyStrip (s : String) : String :=
  String.mk (((s.data.dropWhile isPySpace).reverse.dropWhile isPySpace).reverse)

/-- Helper for `pySplit`: split on runs of whitespace, dropping empties. -/
def pySplitAux : List Char → List Char → List String
  | [], acc => if acc.isEmpty then [] else [String.mk acc.reverse]
  | c :: cs, acc =>
    if isPySpace c then
      if acc.isEmpty then pySplitAux cs []
      else String.mk acc.reverse :: pySplitAux cs []
    else pySplitAux cs (c :: acc)

/-- Python `line.split()` with no arguments. -/
def pySplit (s : String) : List String :=
  pySplitAux s.data []

/-- Python dict assignment `m[k] = v` on an insertion-ordered map. -/
def updateKV (m : List (String × String)) (k v : String) : List (String × String) :=
  if m.any (fun p => p.1 = k) then m.map (fun p => if p.1 = k then (k, v) else p)
  else m ++ [(k, v)]

/-- Python `m.get(k)` on an insertion-ordered map with unique keys. -/
def dGet (m : List (String × String)) (k : String) : Option String :=
  (m.find? (fun p => p.1 = k)).map Prod.snd

/-- One line of `GitEngine._parse_ls_tree_output`'s loop: a nonempty line
is whitespace-split; when it has at least four fields and the second is
`commit`, the path (fields 3.. rejoined with single spaces) is mapped to
the object id (field 2). -/
def lsTreeLine (m : List (String × String)) (line : String) : List (String × String) :=
  if line = "" then m
  else
    let parts := pySplit line
    if parts.length ≥ 4 ∧ parts.getD 1 "" = "commit" then
      updateKV m (String.intercalate " " (parts.drop 3)) (parts.getD 2 "")
    else m

/-- Mirror of `GitEngine._parse_ls_tree_output`: strip the output, split
it into lines, and fold the per-line rule into a path ↦ object-id map. -/
def parseLsTree (output : String) : List (String × String) :=
  (splitOnChar '\n' (pyStrip output)).foldl lsTreeLine []

/-- Mirror of `git_engine.SubmoduleInfo`. -/
structure SubmoduleInfo where
  path : String
  old_sha : String
  new_sha : String
  old_commit : Option String := none
  new_commit : Option String := none
deriving DecidableEq, Repr

/-- Mirror of `GitEngine.get_submodule_info(old_sha, new_sha)` given the
raw outcomes of the two `ls-tree -r` invocations (a failing invocation
yields an empty map, per the try/except blocks): over the union of both
maps' keys, a `SubmoduleInfo` is produced exactly for the paths whose two
pointed-at commits differ. -/
def getSubmoduleInfo (old_sha new_sha : String) (oldLs newLs : Except String String) :
    List SubmoduleInfo :=
  let old_submodules := match oldLs with | .ok s => parseLsTree s | .error _ => []
  let new_submodules := match newLs with | .ok s => parseLsTree s | .error _ => []
  let all_paths := ((old_submodules.map Prod.fst) ++ (new_submodules.map Prod.fst)).dedup
  all_paths.filterMap (fun path =>
    let old_commit := dGet old_submodules path
    let new_commit := dGet new_submodules path
    if old_commit ≠ new_commit then
      some ⟨path, old_sha, new_sha, old_commit, new_commit⟩
    else none)

/-! ### The materializer (`MainWindow._copy_files_worker` and helpers)

File writes and content fetches are external effects; they are modelled
by oracles and the functions below additionally emit an ordered trace of
the observable calls they make.  Paths are git-style relative paths, so
`os.path.join`/`os.path.normpath` are modelled as forward-slash joins. -/

/-- Which side of the comparison a call serves. -/
inductive Side where
  | old
  | new
deriving DecidableEq, Repr

/-- Which engine (store) a content fetch goes through: the parent
repository's engine or the engine constructed for one submodule path. -/
inductive StoreId where
  | parent
  | sub (path : String)
deriving DecidableEq, Repr

/-- One `get_file_content` invocation: the store it is issued against,
the revision argument (submodule commits can be `None` in the source,
hence the option) and the repository-relative path, tagged with the side
whose write it feeds. -/
structure FetchReq where
  store : StoreId
  sha : Option String
  path : String
  side : Side
deriving DecidableEq, Repr

/-- Observable events of one extraction run. -/
inductive Event where
  | fetch (req : FetchReq)
  | fileWrite (version : String) (file_path : String)
  | mark (name : String)
  | submodule (path : String)
deriving DecidableEq, Repr

/-- The fetch requests occurring in a trace, in order. -/
def fetchesOf : List Event → List FetchReq
  | [] => []
  | .fetch r :: es => r :: fetchesOf es
  | _ :: es => fetchesOf es

/-- The `(version, file_path)` pairs of attempted writes in a trace. -/
def writesOf : List Event → List (String × String)
  | [] => []
  | .fileWrite v p :: es => (v, p) :: writesOf es
  | _ :: es => writesOf es

/-- The per-entry progress marks in a trace (the `处理文件 …` log line
emitted at the top of the loop body of `_process_diff_files`). -/
def marksOf : List Event → List String
  | [] => []
  | .mark n :: es => n :: marksOf es
  | _ :: es => marksOf es

/-- The per-submodule marks in a trace (the `处理子模块 …` log line of
the submodule loop in `_copy_files_worker`). -/
def subMarksOf : List Event → List String
  | [] => []
  | .submodule p :: es => p :: subMarksOf es
  | _ :: es => subMarksOf es

/-- Mirror of the statistics fields of `file_manager.FileManager`:
`copied_files` and the ordered `failed_files` list of (path, reason). -/
structure FMState where
  copied_files : Nat
  failed_files : List (String × String)
deriving DecidableEq, Repr

/-- A write oracle maps the target path of an attempted file write to
`none` (success) or `some msg` (the raised exception's message). -/
abbrev WriteOracle := String → Option String

/-- A fetch oracle maps a store, revision argument and path to the raw
outcome of the spawned `git show` process. -/
abbrev FetchOracle := StoreId → Option String → String → Except String Bytes

/-- A fetch as the materializer performs it: the raw process outcome
filtered through `get_file_content`. -/
def fetchContent (fetch : FetchOracle) (store : StoreId) (sha : Option String)
    (path : String) : Except String Bytes :=
  get_file_content path (fetch store sha path)

/-- Mirror of `FileManager.copy_file_to_directory`: an attempted write
either bumps `copied_files` or appends `(target_path, reason)` to
`failed_files`; it never raises. -/
def copy_file_to_directory (write : WriteOracle) (_content : Bytes)
    (target_path : String) (st : FMState) : Bool × FMState :=
  match write target_path with
  | none => (true, { st with copied_files := st.copied_files + 1 })
  | some e => (false, { st with failed_files := st.failed_files ++ [(target_path, e)] })

/-- Mirror of `FileManager.copy_file_with_structure`: the target is
`<base>/<version>/<file_path>` (forward-slash model of join+normpath). -/
def copy_file_with_structure (write : WriteOracle) (content : Bytes)
    (base_output_path file_path version : String) (st : FMState) : Bool × FMState :=
  copy_file_to_directory write content
    (base_output_path ++ "/" ++ version ++ "/" ++ file_path) st

/-- Python `entry.new_path or entry.old_path`, the path recorded for a
per-entry failure in `_process_diff_files`. -/
def entryName (e : DiffEntry) : String :=
  if e.new_path = "" then e.old_path else e.new_path

/-- Mirror of one iteration of the loop body of
`MainWindow._process_diff_files`, including its per-entry try/except: a
raising fetch appends `(entry.new_path or entry.old_path, cause)` to the
failed list and abandons only this entry; write failures are recorded
inside `copy_file_to_directory` and never raise. -/
def processEntry (fetch : FetchOracle) (write : WriteOracle)
    (old_sha new_sha output_path : String) (e : DiffEntry) (st : FMState) :
    FMState × List Event :=
  let evts : List Event := [.mark e.new_path]
  if e.status = 'M' ∨ e.status = 'T' then
    let oldReq : FetchReq := ⟨.parent, some old_sha, e.old_path, .old⟩
    match fetchContent fetch .parent (some old_sha) e.old_path with
    | .error msg =>
      ({ st with failed_files := st.failed_files ++ [(entryName e, msg)] },
        evts ++ [.fetch oldReq])
    | .ok old_content =>
      let st1 := (copy_file_with_structure write old_content output_path e.old_path "old" st).2
      let newReq : FetchReq := ⟨.parent, some new_sha, e.new_path, .new⟩
      match fetchContent fetch .parent (some new_sha) e.new_path with
      | .error msg =>
        ({ st1 with failed_files := st1.failed_files ++ [(entryName e, msg)] },
          evts ++ [.fetch oldReq, .fileWrite "old" e.old_path, .fetch newReq])
      | .ok new_content =>
        ((copy_file_with_structure write new_content output_path e.new_path "new" st1).2,
          evts ++ [.fetch oldReq, .fileWrite "old" e.old_path, .fetch newReq,
            .fileWrite "new" e.new_path])
  else if e.status = 'A' then
    let newReq : FetchReq := ⟨.parent, some new_sha, e.new_path, .new⟩
    match fetchContent fetch .parent (some new_sha) e.new_path with
    | .error msg =>
      ({ st with failed_files := st.failed_files ++ [(entryName e, msg)] },
        evts ++ [.fetch newReq])
    | .ok new_content =>
      ((copy_file_with_structure write new_content output_path e.new_path "new" st).2,
        evts ++ [.fetch newReq, .fileWrite "new" e.new_path])
  else if e.status = 'D' then
    let oldReq : FetchReq := ⟨.parent, some old_sha, e.old_path, .old⟩
    match fetchContent fetch .parent (some old_sha) e.old_path with
    | .error msg =>
      ({ st with failed_files := st.failed_files ++ [(entryName e, msg)] },
        evts ++ [.fetch oldReq])
    | .ok old_content =>
      ((copy_file_with_structure write old_content output_path e.old_path "old" st).2,
        evts ++ [.fetch oldReq, .fileWrite "old" e.old_path])
  else if e.status = 'R' ∨ e.status = 'C' then
    let oldReq : FetchReq := ⟨.parent, some old_sha, e.old_path, .old⟩
    match fetchContent fetch .parent (some old_sha) e.old_path with
    | .error msg =>
      ({ st with failed_files := st.failed_files ++ [(entryName e, msg)] },
        evts ++ [.fetch oldReq])
    | .ok old_content =>
      let st1 := (copy_file_with_structure write old_content output_path e.old_path "old" st).2
      let newReq : FetchReq := ⟨.parent, some new_sha, e.new_path, .new⟩
      match fetchContent fetch .parent (some new_sha) e.new_path with
      | .error msg =>
        ({ st1 with failed_files := st1.failed_files ++ [(entryName e, msg)] },
          evts ++ [.fetch oldReq, .fileWrite "old" e.old_path, .fetch newReq])
      | .ok new_content =>
        ((copy_file_with_structure write new_content output_path e.new_path "new" st1).2,
          evts ++ [.fetch oldReq, .fileWrite "old" e.old_path, .fetch newReq,
            .fileWrite "new" e.new_path])
  else (st, evts)

/-- Mirror of the loop of `MainWindow._process_diff_files`: every entry
is processed in order; the per-entry try/except guarantees the loop
itself never stops early. -/
def processDiffFiles (fetch : FetchOracle) (write : WriteOracle)
    (old_sha new_sha output_path : String) :
    List DiffEntry → FMState → FMState × List Event
  | [], st => (st, [])
  | e :: rest, st =>
    let r1 := processEntry fetch write old_sha new_sha output_path e st
    let r2 := processDiffFiles fetch write old_sha new_sha output_path rest r1.1
    (r2.1, r1.2 ++ r2.2)

/-- Mirror of the entry loop of `MainWindow._process_submodule`: only
`M`/`T`, `A` and `D` nested entries are handled (there is no rename/copy
branch), nested paths are remapped by prefixing the submodule path, and
there is no per-entry try/except — a raising nested fetch aborts the
remaining entries of this submodule without recording a failure (the
surrounding try/except of `_process_submodule` swallows it). The third
component is true when the loop was aborted by such an exception. -/
def processSubEntries (fetch : FetchOracle) (write : WriteOracle)
    (subPath : String) (old_commit new_commit : Option String) (output_path : String) :
    List DiffEntry → FMState → FMState × List Event × Bool
  | [], st => (st, [], false)
  | e :: rest, st =>
    if e.status = 'M' ∨ e.status = 'T' then
      let oldReq : FetchReq := ⟨.sub subPath, old_commit, e.old_path, .old⟩
      match fetchContent fetch (.sub subPath) old_commit e.old_path with
      | .error _ => (st, [.fetch oldReq], true)
      | .ok old_content =>
        let st1 := (copy_file_with_structure write old_content output_path
          (subPath ++ "/" ++ e.old_path) "old" st).2
        let newReq : FetchReq := ⟨.sub subPath, new_commit, e.new_path, .new⟩
        match fetchContent fetch (.sub subPath) new_commit e.new_path with
        | .error _ =>
          (st1, [.fetch oldReq, .fileWrite "old" (subPath ++ "/" ++ e.old_path),
            .fetch newReq], true)
        | .ok new_content =>
          let st2 := (copy_file_with_structure write new_content output_path
            (subPath ++ "/" ++ e.new_path) "new" st1).2
          let r := processSubEntries fetch write subPath old_commit new_commit
            output_path rest st2
          (r.1, [.fetch oldReq, .fileWrite "old" (subPath ++ "/" ++ e.old_path),
            .fetch newReq, .fileWrite "new" (subPath ++ "/" ++ e.new_path)] ++ r.2.1, r.2.2)
    else if e.status = 'A' then
      let newReq : FetchReq := ⟨.sub subPath, new_commit, e.new_path, .new⟩
      match fetchContent fetch (.sub subPath) new_commit e.new_path with
      | .error _ => (st, [.fetch newReq], true)
      | .ok new_content =>
        let st1 := (copy_file_with_structure write new_content output_path
          (subPath ++ "/" ++ e.new_path) "new" st).2
        let r := processSubEntries fetch write subPath old_commit new_commit
          output_path rest st1
        (r.1, [.fetch newReq, .fileWrite "new" (subPath ++ "/" ++ e.new_path)] ++ r.2.1,
          r.2.2)
    else if e.status = 'D' then
      let oldReq : FetchReq := ⟨.sub subPath, old_commit, e.old_path, .old⟩
      match fetchContent fetch (.sub subPath) old_commit e.old_path with
      | .error _ => (st, [.fetch oldReq], true)
      | .ok old_content =>
        let st1 := (copy_file_with_structure write old_content output_path
          (subPath ++ "/" ++ e.old_path) "old" st).2
        let r := processSubEntries fetch write subPath old_commit new_commit
          output_path rest st1
        (r.1, [.fetch oldReq, .fileWrite "old" (subPath ++ "/" ++ e.old_path)] ++ r.2.1,
          r.2.2)
    else
      let r := processSubEntries fetch write subPath old_commit new_commit
        output_path rest st
      (r.1, r.2.1, r.2.2)

/-- The per-submodule collaborator surface of `_process_submodule`:
whether `is_submodule_initialized` holds, whether the child engine's
`validate_repository` holds, and the raw outcome of the child engine's
`diff --name-status -z` invocation for a given ref pair. -/
structure SubOracle where
  initialized : String → Bool
  validRepo : String → Bool
  diffStream : String → String → String → Except String String

/-- Mirror of `MainWindow._process_submodule`: an uninitialized or
invalid submodule is skipped; the nested diff is obtained with the
resolved commits (falling back to the parent refs when absent); the
entry loop above then runs. A raising nested `get_diff_entries` is
swallowed by the surrounding try/except. -/
def processSubmodule (fetch : FetchOracle) (write : WriteOracle) (subs : SubOracle)
    (output_path : String) (sub : SubmoduleInfo) (st : FMState) : FMState × List Event :=
  if ¬ subs.initialized sub.path then (st, [])
  else if ¬ subs.validRepo sub.path then (st, [])
  else
    match subs.diffStream sub.path (sub.old_commit.getD sub.old_sha)
        (sub.new_commit.getD sub.new_sha) with
    | .error _ => (st, [])
    | .ok stream =>
      let r := processSubEntries fetch write sub.path sub.old_commit sub.new_commit
        output_path (getDiffEntries stream) st
      (r.1, r.2.1)

/-- Mirror of the submodule loop of `MainWindow._copy_files_worker`:
every submodule is logged and processed; `_process_submodule` catches
its own exceptions, so the loop never stops early. -/
def processSubmodules (fetch : FetchOracle) (write : WriteOracle) (subs : SubOracle)
    (output_path : String) : List SubmoduleInfo → FMState → FMState × List Event
  | [], st => (st, [])
  | sub :: rest, st =>
    let r1 := processSubmodule fetch write subs output_path sub st
    let r2 := processSubmodules fetch write subs output_path rest r1.1
    (r2.1, Event.submodule sub.path :: r1.2 ++ r2.2)

/-- Collaborator surface of one `_copy_files_worker` run: the outcomes
of repository validation, output-directory preparation, the top-level
diff invocation and the two `ls-tree` invocations, plus the fetch/write
oracles and the per-submodule surface. -/
structure WorkerEnv where
  validRepo : Bool
  prepOk : Bool
  diffStream : Except String String
  lsOld : Except String String
  lsNew : Except String String
  fetch : FetchOracle
  write : WriteOracle
  subs : SubOracle

/-- Mirror of `MainWindow._copy_files_worker`: validate the repository
(stopping on failure), prepare the output directory (stopping on
failure), obtain the diff entries (a raising `get_diff_entries` is
caught by the worker's try/except), process them, then resolve and
process the submodules. The `FileManager` statistics object `st` is
whatever the long-lived `self.file_manager` holds when the run starts. -/
def copyFilesWorker (env : WorkerEnv) (old_sha new_sha output_path folder_name : String)
    (st : FMState) : FMState × List Event :=
  if ¬ env.validRepo then (st, [])
  else if ¬ env.prepOk then (st, [])
  else
    let full_output_path := output_path ++ "/" ++ folder_name
    match env.diffStream with
    | .error _ => (st, [])
    | .ok stream =>
      let entries := getDiffEntries stream
      let r1 := processDiffFiles env.fetch env.write old_sha new_sha full_output_path
        entries st
      let submodules := getSubmoduleInfo old_sha new_sha env.lsOld env.lsNew
      let r2 := processSubmodules env.fetch env.write env.subs full_output_path
        submodules r1.1
      (r2.1, r1.2 ++ r2.2)

/-- The per-status schedule `_process_submodule` actually applies to one
nested entry when no nested fetch raises: Modified/TypeChanged both
sides, Added new side only, Deleted old side only, and nothing at all
for any other status — including Renamed/Copied, for which the function
has no branch.  Nested paths are prefixed with the submodule path and
all fetches go through the submodule's own store. -/
def nestedEventTable (sub : SubmoduleInfo) (e : DiffEntry) : List Event :=
  if e.status = 'M' ∨ e.status = 'T' then
    [.fetch ⟨.sub sub.path, sub.old_commit, e.old_path, .old⟩,
     .fileWrite "old" (sub.path ++ "/" ++ e.old_path),
     .fetch ⟨.sub sub.path, sub.new_commit, e.new_path, .new⟩,
     .fileWrite "new" (sub.path ++ "/" ++ e.new_path)]
  else if e.status = 'A' then
    [.fetch ⟨.sub sub.path, sub.new_commit, e.new_path, .new⟩,
     .fileWrite "new" (sub.path ++ "/" ++ e.new_path)]
  else if e.status = 'D' then
    [.fetch ⟨.sub sub.path, sub.old_commit, e.old_path, .old⟩,
     .fileWrite "old" (sub.path ++ "/" ++ e.old_path)]
  else []

/-- A run-processing step is additively translation-invariant in the
statistics state: running it from any starting `FMState` produces the
starting counters plus the run's own contribution (the contribution and
the event trace are independent of the starting state).  This captures
that `FileManager` counters are only ever incremented/appended and never
read back or reset by the processing code. -/
def RunShape (F : FMState → FMState × List Event) : Prop :=
  ∀ st, F st =
    (⟨st.copied_files + (F ⟨0, []⟩).1.copied_files,
      st.failed_files ++ (F ⟨0, []⟩).1.failed_files⟩,
     (F ⟨0, []⟩).2)

/-! ## Supporting lemmas -/

theorem leadChars_self_append (n s : List Char) : leadChars n (n ++ s) = true := by
  induction n with
  | nil => rfl
  | cons a as ih => simp [leadChars, ih]

theorem subChars_self_append (n s : List Char) : subChars n (n ++ s) = true := by
  cases n with
  | nil => cases s <;> simp [subChars, leadChars]
  | cons a as => simp [subChars, leadChars, leadChars_self_append]

theorem subChars_append_of (p n s : List Char) : subChars n (p ++ (n ++ s)) = true := by
  induction p with
  | nil => simpa using subChars_self_append n s
  | cons c cs ih => simp [subChars, ih]

theorem mem_keys_of_dGet_ne_none {m : List (String × String)} {k : String}
    (h : dGet m k ≠ none) : k ∈ m.map Prod.fst := by
  unfold dGet at h
  cases hf : m.find? (fun p => p.1 = k) with
  | none => simp [hf] at h
  | some pair =>
    have hmem := List.mem_of_find?_eq_some hf
    have hpred := List.find?_some hf
    simp at hpred
    exact hpred ▸ List.mem_map_of_mem Prod.fst hmem

theorem front_mk_cons (c : Char) (ds : List Char) : (String.mk (c :: ds)).front = c := rfl

theorem mk_cons_ne_empty (c : Char) (ds : List Char) : String.mk (c :: ds) ≠ "" := by
  intro h
  have := congrArg String.data h
  simp at this

theorem drop_cons_getD (parts : List String) (i : Nat) (h : i < parts.length) :
    parts.drop i = parts.getD i "" :: parts.drop (i + 1) := by
  rw [List.getD_eq_getElem parts "" h]
  exact List.drop_eq_getElem_cons h

theorem parseTokens_empty_status (rest : List String) :
    parseTokens ("" :: rest) = parseTokens rest := by
  cases rest <;> simp [parseTokens]

theorem parseTokens_lone (s : String) (hs : s ≠ "") : parseTokens [s] = [] := by
  simp [parseTokens, hs]

theorem parseTokens_empty_path (s : String) (rest : List String) (hs : s ≠ "") :
    parseTokens (s :: "" :: rest) = parseTokens rest := by
  simp [parseTokens, hs]

theorem parseTokens_rc_match_pair (s p : String) (sim : Nat) (hs : s ≠ "") (hp : p ≠ "")
    (hrc : s.front = 'R' ∨ s.front = 'C') (hm : matchRC s = some sim) :
    parseTokens [s, p] = [⟨s.front, p, p, sim⟩] := by
  simp only [parseTokens]
  rw [if_neg hs, if_neg hp, if_pos hrc, hm]

theorem parseTokens_rc_match_cons (s p q : String) (rest : List String) (sim : Nat)
    (hs : s ≠ "") (hp : p ≠ "") (hrc : s.front = 'R' ∨ s.front = 'C')
    (hm : matchRC s = some sim) :
    parseTokens (s :: p :: q :: rest) = ⟨s.front, p, q, sim⟩ :: parseTokens rest := by
  simp only [parseTokens]
  rw [if_neg hs, if_neg hp, if_pos hrc, hm]

theorem parseTokens_rc_fail (s p : String) (rest : List String) (hs : s ≠ "") (hp : p ≠ "")
    (hrc : s.front = 'R' ∨ s.front = 'C') (hm : matchRC s = none) :
    parseTokens (s :: p :: rest) = ⟨s.front, p, p, 0⟩ :: parseTokens rest := by
  simp only [parseTokens]
  rw [if_neg hs, if_neg hp, if_pos hrc, hm]

theorem parseTokens_plain (s p : String) (rest : List String) (hs : s ≠ "") (hp : p ≠ "")
    (hrc : ¬(s.front = 'R' ∨ s.front = 'C')) :
    parseTokens (s :: p :: rest) = ⟨s.front, p, p, 0⟩ :: parseTokens rest := by
  simp only [parseTokens]
  rw [if_neg hs, if_neg hp, if_neg hrc]

/-! ## Claim theorems -/

/-- C7: parsing the null-delimited stream
`M\0a.txt\0A\0b.txt\0D\0c.txt\0R100\0old.txt\0new.txt\0` yields exactly
four entries in order: Modified `a.txt` (both paths), Added `b.txt`,
Deleted `c.txt`, and Renamed `old.txt → new.txt` with similarity 100. -/
theorem claim_c7_example_stream :
    getDiffEntries "M\x00a.txt\x00A\x00b.txt\x00D\x00c.txt\x00R100\x00old.txt\x00new.txt\x00" =
      [⟨'M', "a.txt", "a.txt", 0⟩, ⟨'A', "b.txt", "b.txt", 0⟩,
       ⟨'D', "c.txt", "c.txt", 0⟩, ⟨'R', "old.txt", "new.txt", 100⟩] := by decide

/-- C3 counterexample: on the stream `R\0a\0b\0` the status token `R` has
first character `R` but malformed similarity digits, and the parser does
NOT consume two path tokens: it produces the single entry
`⟨'R', "a", "a", 0⟩` and the token `b` never becomes a new path, contrary
to the claim that an `R`/`C`-initial status token always consumes two
path tokens (old path then new path). -/
theorem claim_c3_counterexample :
    getDiffEntries "R\x00a\x00b\x00" = [⟨'R', "a", "a", 0⟩] ∧
    ∀ e ∈ getDiffEntries "R\x00a\x00b\x00", e.new_path ≠ "b" := by decide

/-- C3 amended: a status token of the exact form `R<digits>`/`C<digits>`
consumes two path tokens and its digits become the similarity; a status
token whose first character is `R` or `C` but whose trailing digits are
malformed is still recognized with its status and similarity 0, but
consumes only ONE path token (the entry's new path equals its old path). -/
theorem claim_c3_rename_copy_consumption (c : Char) (ds : List Char) (p1 p2 : String)
    (rest : List String) (hc : c = 'R' ∨ c = 'C') (hp1 : p1 ≠ "") :
    (ds ≠ [] ∧ ds.all (fun d => d.isDigit) = true →
      parseTokens (String.mk (c :: ds) :: p1 :: p2 :: rest) =
        ⟨c, p1, p2, digitsVal ds⟩ :: parseTokens rest) ∧
    (¬ (ds ≠ [] ∧ ds.all (fun d => d.isDigit) = true) →
      parseTokens (String.mk (c :: ds) :: p1 :: p2 :: rest) =
        ⟨c, p1, p1, 0⟩ :: parseTokens (p2 :: rest)) := by
  constructor
  · intro hd
    simp only [parseTokens, mk_cons_ne_empty c ds, if_false, hp1, front_mk_cons, hc,
      matchRC]
    simp [matchRC, hc, hd.1, hd.2, mk_cons_ne_empty c ds, hp1]
  · intro hd
    have hcond : ¬(¬ds = [] ∧ ∀ x ∈ ds, x.isDigit = true) := by simpa using hd
    simp [parseTokens, matchRC, hc, hcond, mk_cons_ne_empty c ds, hp1, front_mk_cons]

/-- Witness for C3 amended at `R100 old.txt new.txt`. -/
theorem claim_c3_rename_copy_consumption_witness :
    parseTokens [String.mk ['R', '1', '0', '0'], "old.txt", "new.txt"] =
      [⟨'R', "old.txt", "new.txt", 100⟩] := by
  have h := (claim_c3_rename_copy_consumption 'R' ['1', '0', '0'] "old.txt" "new.txt" []
    (Or.inl rfl) (by decide)).1 ⟨by decide, by decide⟩
  simpa [show digitsVal ['1', '0', '0'] = 100 by decide] using h

/-- C4: `get_file_content` always yields a byte sequence on success; a
failure whose message reports a missing path at that revision yields the
empty byte sequence instead of failing; every other failure propagates as
an error whose message contains both the path and the original cause. -/
theorem claim_c4_get_file_content (file_path : String) (res : Except String Bytes) :
    (∀ bs, res = .ok bs → get_file_content file_path res = .ok bs) ∧
    (∀ e, res = .error e → isNotFoundMsg e = true → get_file_content file_path res = .ok []) ∧
    (∀ e, res = .error e → isNotFoundMsg e = false →
      ∃ msg, get_file_content file_path res = .error msg ∧
        strIn file_path msg = true ∧ strIn e msg = true) := by
  refine ⟨?_, ?_, ?_⟩
  · intro bs h
    subst h
    by_cases hbs : bs = [] <;> simp [get_file_content, hbs]
  · intro e h hnf
    subst h
    simp [get_file_content, hnf]
  · intro e h hnf
    subst h
    refine ⟨"获取文件内容失败 " ++ file_path ++ ": " ++ e,
      by simp [get_file_content, hnf], ?_, ?_⟩
    · unfold strIn
      have hd : ("获取文件内容失败 " ++ file_path ++ ": " ++ e).data
          = "获取文件内容失败 ".data ++ (file_path.data ++ (": " ++ e).data) := by
        simp [String.data_append, List.append_assoc]
      rw [hd]
      exact subChars_append_of _ _ _
    · unfold strIn
      have hd : ("获取文件内容失败 " ++ file_path ++ ": " ++ e).data
          = ("获取文件内容失败 " ++ file_path ++ ": ").data ++ (e.data ++ []) := by
        simp [String.data_append]
      rw [hd]
      exact subChars_append_of _ _ _

/-- Witness for C4 at a missing-path failure and at an unrelated failure. -/
theorem claim_c4_get_file_content_witness :
    get_file_content "a.txt" (Except.error "fatal: path does not exist") =
       Except.ok ([] : Bytes) ∧
    ∃ msg, get_file_content "a.txt" (Except.error "boom") = Except.error msg ∧
      strIn "a.txt" msg = true ∧ strIn "boom" msg = true := by
  constructor
  · exact (claim_c4_get_file_content "a.txt" _).2.1 _ rfl (by decide)
  · exact (claim_c4_get_file_content "a.txt" _).2.2 "boom" rfl (by decide)

/-- C9: in any run of the extraction worker in which repository
validation fails, no content fetch is ever issued: the run stops before
any `get_file_content` call. -/
theorem claim_c9_short_circuit (env : WorkerEnv)
    (old_sha new_sha output_path folder_name : String) (st : FMState)
    (h : env.validRepo = false) :
    fetchesOf (copyFilesWorker env old_sha new_sha output_path folder_name st).2 = [] := by
  simp [copyFilesWorker, h, fetchesOf]

/-- Witness for C9: a live environment (a diff entry, working oracles)
whose repository validation nevertheless fails issues no fetch. -/
theorem claim_c9_short_circuit_witness :
    fetchesOf (copyFilesWorker
      ⟨false, true, .ok "M\x00a\x00", .ok "", .ok "", fun _ _ _ => .ok [], fun _ => none,
        ⟨fun _ => true, fun _ => true, fun _ _ _ => .ok ""⟩⟩
      "oldsha" "newsha" "out" "cmp" ⟨0, []⟩).2 = [] :=
  claim_c9_short_circuit _ "oldsha" "newsha" "out" "cmp" ⟨0, []⟩ rfl

/-- C6: the submodule resolver emits a change record for a path exactly
when the commit pointer at that path differs between the two revisions'
tree listings (including a pointer present on only one side); identical
pointers on both sides never produce a change. -/
theorem claim_c6_submodule_iff (old_sha new_sha oldLs newLs p : String) :
    (∃ si ∈ getSubmoduleInfo old_sha new_sha (.ok oldLs) (.ok newLs), si.path = p) ↔
      dGet (parseLsTree oldLs) p ≠ dGet (parseLsTree newLs) p := by
  constructor
  · rintro ⟨si, hsi, hp⟩
    simp only [getSubmoduleInfo, List.mem_filterMap] at hsi
    obtain ⟨a, ha, hif⟩ := hsi
    by_cases hne : dGet (parseLsTree oldLs) a ≠ dGet (parseLsTree newLs) a
    · rw [if_pos hne] at hif
      obtain rfl := Option.some.inj hif
      simp only at hp
      subst hp
      exact hne
    · rw [if_neg hne] at hif
      exact absurd hif (by simp)
  · intro hne
    have hmem : p ∈ ((parseLsTree oldLs).map Prod.fst ++
        (parseLsTree newLs).map Prod.fst).dedup := by
      rw [List.mem_dedup, List.mem_append]
      rcases h1 : dGet (parseLsTree oldLs) p with _ | v
      · rcases h2 : dGet (parseLsTree newLs) p with _ | w
        · exact absurd (h1.trans h2.symm) hne
        · exact Or.inr (mem_keys_of_dGet_ne_none (by simp [h2]))
      · exact Or.inl (mem_keys_of_dGet_ne_none (by simp [h1]))
    refine ⟨⟨p, old_sha, new_sha, dGet (parseLsTree oldLs) p, dGet (parseLsTree newLs) p⟩,
      ?_, rfl⟩
    simp only [getSubmoduleInfo, List.mem_filterMap]
    exact ⟨p, hmem, by rw [if_pos hne]⟩

/-- C10: the diff-stream parser terminates on every input: the Python
loop's scan index strictly increases each iteration, so running the
index-based loop with any fuel exceeding the number of unscanned tokens
completes (returns `some`) and agrees with the total parser, for every
token list — including malformed ones. -/
theorem claim_c10_parser_terminates (fuel : Nat) : ∀ (parts : List String) (i : Nat),
    parts.length - i < fuel →
    parseLoopFuel fuel parts i = some (parseTokens (parts.drop i)) := by
  induction fuel with
  | zero =>
    intro parts i h
    omega
  | succ n ih =>
    intro parts i h
    by_cases h1 : i < parts.length
    case neg =>
      have hnil : parts.drop i = [] := List.drop_eq_nil_of_le (by omega)
      simp only [parseLoopFuel, hnil, parseTokens]
      rw [if_neg h1]
    case pos =>
      rw [drop_cons_getD parts i h1]
      simp only [parseLoopFuel]
      rw [if_pos h1]
      by_cases hs : parts.getD i "" = ""
      case pos =>
        rw [if_pos hs, hs, parseTokens_empty_status]
        exact ih parts (i + 1) (by omega)
      case neg =>
        rw [if_neg hs]
        by_cases h2 : i + 1 < parts.length
        case neg =>
          rw [if_neg h2]
          have hnil : parts.drop (i + 1) = [] := List.drop_eq_nil_of_le (by omega)
          rw [hnil, parseTokens_lone _ hs]
        case pos =>
          rw [if_pos h2, drop_cons_getD parts (i + 1) h2]
          have e12 : i + 1 + 1 = i + 2 := rfl
          rw [e12]
          by_cases hf : parts.getD (i + 1) "" = ""
          case pos =>
            rw [if_pos hf, hf, parseTokens_empty_path _ _ hs]
            exact ih parts (i + 2) (by omega)
          case neg =>
            rw [if_neg hf]
            by_cases hrc : (parts.getD i "").front = 'R' ∨ (parts.getD i "").front = 'C'
            case pos =>
              rw [if_pos hrc]
              split
              next sim hm =>
                by_cases h3 : i + 2 < parts.length
                case pos =>
                  rw [if_pos h3, ih parts (i + 3) (by omega),
                    drop_cons_getD parts (i + 2) h3]
                  have e23 : i + 2 + 1 = i + 3 := rfl
                  rw [e23, parseTokens_rc_match_cons _ _ _ _ _ hs hf hrc hm]
                  rfl
                case neg =>
                  rw [if_neg h3, ih parts (i + 2) (by omega)]
                  have hnil : parts.drop (i + 2) = [] := List.drop_eq_nil_of_le (by omega)
                  rw [hnil, parseTokens_rc_match_pair _ _ _ hs hf hrc hm]
                  rfl
              next hm =>
                rw [ih parts (i + 2) (by omega), parseTokens_rc_fail _ _ _ hs hf hrc hm]
                rfl
            case neg =>
              rw [if_neg hrc, ih parts (i + 2) (by omega),
                parseTokens_plain _ _ _ hs hf hrc]
              rfl

/-- Witness for C10 on a malformed stream (a status token followed by
only empty tokens). -/
theorem claim_c10_parser_terminates_witness :
    (tokenize "M\x00\x00\x00").length - 0 < 5 ∧
    parseLoopFuel 5 (tokenize "M\x00\x00\x00") 0 =
      some (parseTokens ((tokenize "M\x00\x00\x00").drop 0)) :=
  ⟨by decide, claim_c10_parser_terminates 5 (tokenize "M\x00\x00\x00") 0 (by decide)⟩

/-! ## The materializer: fetch policy, failure isolation, statistics -/

theorem fetchesOf_append (a b : List Event) :
    fetchesOf (a ++ b) = fetchesOf a ++ fetchesOf b := by
  induction a with
  | nil => rfl
  | cons x xs ih => cases x <;> simp [fetchesOf, ih]

theorem marksOf_append (a b : List Event) :
    marksOf (a ++ b) = marksOf a ++ marksOf b := by
  induction a with
  | nil => rfl
  | cons x xs ih => cases x <;> simp [marksOf, ih]

theorem subMarksOf_append (a b : List Event) :
    subMarksOf (a ++ b) = subMarksOf a ++ subMarksOf b := by
  induction a with
  | nil => rfl
  | cons x xs ih => cases x <;> simp [subMarksOf, ih]

theorem processEntry_count (fetch : FetchOracle) (write : WriteOracle)
    (old_sha new_sha output_path : String) (e : DiffEntry) (st : FMState) :
    (processEntry fetch write old_sha new_sha output_path e st).1.copied_files +
      (processEntry fetch write old_sha new_sha output_path e st).1.failed_files.length =
    st.copied_files + st.failed_files.length +
      (fetchesOf (processEntry fetch write old_sha new_sha output_path e st).2).length := by
  unfold processEntry copy_file_with_structure copy_file_to_directory
  repeat' split
  all_goals simp [fetchesOf]
  all_goals omega

theorem processEntry_marks (fetch : FetchOracle) (write : WriteOracle)
    (old_sha new_sha output_path : String) (e : DiffEntry) (st : FMState) :
    marksOf (processEntry fetch write old_sha new_sha output_path e st).2 = [e.new_path] := by
  unfold processEntry copy_file_with_structure copy_file_to_directory
  repeat' split
  all_goals simp [marksOf]

theorem processDiffFiles_marks (fetch : FetchOracle) (write : WriteOracle)
    (old_sha new_sha output_path : String) :
    ∀ (entries : List DiffEntry) (st : FMState),
    marksOf (processDiffFiles fetch write old_sha new_sha output_path entries st).2 =
      entries.map (fun x => x.new_path) := by
  intro entries
  induction entries with
  | nil =>
    intro st
    simp [processDiffFiles, marksOf]
  | cons e rest ih =>
    intro st
    simp [processDiffFiles, marksOf_append, processEntry_marks, ih]

theorem processDiffFiles_count (fetch : FetchOracle) (write : WriteOracle)
    (old_sha new_sha output_path : String) :
    ∀ (entries : List DiffEntry) (st : FMState),
    (processDiffFiles fetch write old_sha new_sha output_path entries st).1.copied_files +
      (processDiffFiles fetch write old_sha new_sha output_path entries st).1.failed_files.length =
    st.copied_files + st.failed_files.length +
      (fetchesOf (processDiffFiles fetch write old_sha new_sha output_path entries st).2).length := by
  intro entries
  induction entries with
  | nil =>
    intro st
    simp [processDiffFiles, fetchesOf]
  | cons e rest ih =>
    intro st
    have h1 := processEntry_count fetch write old_sha new_sha output_path e st
    have h2 := ih (processEntry fetch write old_sha new_sha output_path e st).1
    simp only [processDiffFiles, fetchesOf_append, List.length_append]
    omega

theorem processSubEntries_subMarks (fetch : FetchOracle) (write : WriteOracle)
    (subPath : String) (oc nc : Option String) (output_path : String) :
    ∀ (entries : List DiffEntry) (st : FMState),
    subMarksOf (processSubEntries fetch write subPath oc nc output_path entries st).2.1 = [] := by
  intro entries
  induction entries with
  | nil =>
    intro st
    simp [processSubEntries, subMarksOf]
  | cons e rest ih =>
    intro st
    unfold processSubEntries
    repeat' split
    all_goals simp [subMarksOf, subMarksOf_append, ih]

theorem processSubmodule_subMarks (fetch : FetchOracle) (write : WriteOracle)
    (subsO : SubOracle) (output_path : String) (sub : SubmoduleInfo) (st : FMState) :
    subMarksOf (processSubmodule fetch write subsO output_path sub st).2 = [] := by
  unfold processSubmodule
  repeat' split
  all_goals simp [subMarksOf, processSubEntries_subMarks]

theorem processSubmodules_subMarks (fetch : FetchOracle) (write : WriteOracle)
    (subsO : SubOracle) (output_path : String) :
    ∀ (subs : List SubmoduleInfo) (st : FMState),
    subMarksOf (processSubmodules fetch write subsO output_path subs st).2 =
      subs.map (fun s => s.path) := by
  intro subs
  induction subs with
  | nil =>
    intro st
    simp [processSubmodules, subMarksOf]
  | cons sub rest ih =>
    intro st
    simp [processSubmodules, subMarksOf, subMarksOf_append, processSubmodule_subMarks, ih]

theorem processEntry_error_recorded (fetch : FetchOracle) (write : WriteOracle)
    (old_sha new_sha output_path : String) (e : DiffEntry) (st : FMState) :
    ((e.status = 'M' ∨ e.status = 'T' ∨ e.status = 'R' ∨ e.status = 'C') →
      (∀ msg, fetchContent fetch .parent (some old_sha) e.old_path = .error msg →
        (processEntry fetch write old_sha new_sha output_path e st).1.failed_files =
          st.failed_files ++ [(entryName e, msg)]) ∧
      (∀ bs msg, fetchContent fetch .parent (some old_sha) e.old_path = .ok bs →
        fetchContent fetch .parent (some new_sha) e.new_path = .error msg →
        (entryName e, msg) ∈
          (processEntry fetch write old_sha new_sha output_path e st).1.failed_files)) ∧
    (e.status = 'A' →
      ∀ msg, fetchContent fetch .parent (some new_sha) e.new_path = .error msg →
        (processEntry fetch write old_sha new_sha output_path e st).1.failed_files =
          st.failed_files ++ [(entryName e, msg)]) ∧
    (e.status = 'D' →
      ∀ msg, fetchContent fetch .parent (some old_sha) e.old_path = .error msg →
        (processEntry fetch write old_sha new_sha output_path e st).1.failed_files =
          st.failed_files ++ [(entryName e, msg)]) := by
  refine ⟨?_, ?_, ?_⟩
  · intro h
    constructor
    · intro msg herr
      rcases h with h | h | h | h <;> simp [processEntry, h, herr]
    · intro bs msg hok herr
      rcases h with h | h | h | h <;>
        · simp only [processEntry, h, hok, herr, copy_file_with_structure,
            copy_file_to_directory]
          cases hw : write (output_path ++ "/" ++ "old" ++ "/" ++ e.old_path) <;>
            simp [hw]
  · intro h msg herr
    simp [processEntry, h, herr]
  · intro h msg herr
    simp [processEntry, h, herr]

theorem processSubEntries_table (fetch : FetchOracle) (write : WriteOracle)
    (sub : SubmoduleInfo) (output_path : String)
    (hok : ∀ sha p, ∃ bs, fetchContent fetch (.sub sub.path) sha p = .ok bs) :
    ∀ (entries : List DiffEntry) (st : FMState),
    (processSubEntries fetch write sub.path sub.old_commit sub.new_commit output_path
        entries st).2.1 = entries.flatMap (nestedEventTable sub) := by
  intro entries
  induction entries with
  | nil =>
    intro st
    simp [processSubEntries]
  | cons e rest ih =>
    intro st
    by_cases hMT : e.status = 'M' ∨ e.status = 'T'
    · obtain ⟨bs1, h1⟩ := hok sub.old_commit e.old_path
      obtain ⟨bs2, h2⟩ := hok sub.new_commit e.new_path
      simp [processSubEntries, hMT, h1, h2, nestedEventTable, ih]
    · by_cases hA : e.status = 'A'
      · obtain ⟨bs2, h2⟩ := hok sub.new_commit e.new_path
        simp [processSubEntries, hMT, hA, h2, nestedEventTable, ih]
      · by_cases hD : e.status = 'D'
        · obtain ⟨bs1, h1⟩ := hok sub.old_commit e.old_path
          simp [processSubEntries, hMT, hA, hD, h1, nestedEventTable, ih]
        · simp [processSubEntries, hMT, hA, hD, nestedEventTable, ih]

theorem runShape_seq {F G : FMState → FMState × List Event}
    (hF : RunShape F) (hG : RunShape G) :
    RunShape (fun st => ((G (F st).1).1, (F st).2 ++ (G (F st).1).2)) := by
  intro st
  have h3 := hG (F st).1
  have h4 := hG (F ⟨0, []⟩).1
  have h1 := hF st
  have h2 := hF ⟨0, []⟩
  simp only
  rw [h3, h4, h1, h2]
  simp [List.append_assoc, Nat.add_assoc]

theorem processEntry_runShape (fetch : FetchOracle) (write : WriteOracle)
    (old_sha new_sha output_path : String) (e : DiffEntry) :
    RunShape (fun st => processEntry fetch write old_sha new_sha output_path e st) := by
  intro st
  unfold processEntry copy_file_with_structure copy_file_to_directory
  repeat' split
  all_goals simp [List.append_assoc]

theorem processDiffFiles_runShape (fetch : FetchOracle) (write : WriteOracle)
    (old_sha new_sha output_path : String) :
    ∀ entries : List DiffEntry,
    RunShape (fun st => processDiffFiles fetch write old_sha new_sha output_path entries st) := by
  intro entries
  induction entries with
  | nil =>
    intro st
    simp [processDiffFiles]
  | cons e rest ih =>
    have h := runShape_seq (processEntry_runShape fetch write old_sha new_sha output_path e) ih
    intro st
    have h1 := h st
    simp only at h1
    simpa [processDiffFiles] using h1

theorem processSubEntries_shape (fetch : FetchOracle) (write : WriteOracle)
    (subPath : String) (oc nc : Option String) (output_path : String) :
    ∀ (entries : List DiffEntry) (st : FMState),
    processSubEntries fetch write subPath oc nc output_path entries st =
      (⟨st.copied_files +
          (processSubEntries fetch write subPath oc nc output_path entries ⟨0, []⟩).1.copied_files,
        st.failed_files ++
          (processSubEntries fetch write subPath oc nc output_path entries ⟨0, []⟩).1.failed_files⟩,
       (processSubEntries fetch write subPath oc nc output_path entries ⟨0, []⟩).2.1,
       (processSubEntries fetch write subPath oc nc output_path entries ⟨0, []⟩).2.2) := by
  intro entries
  induction entries with
  | nil =>
    intro st
    simp [processSubEntries]
  | cons e rest ih =>
    intro st
    obtain ⟨R, hR⟩ : ∃ r,
        processSubEntries fetch write subPath oc nc output_path rest ⟨0, []⟩ = r :=
      ⟨_, rfl⟩
    simp only [hR] at ih
    unfold processSubEntries copy_file_with_structure copy_file_to_directory
    repeat' split
    all_goals simp [ih, hR, List.append_assoc, Nat.add_assoc]

theorem processSubmodule_runShape (fetch : FetchOracle) (write : WriteOracle)
    (subsO : SubOracle) (output_path : String) (sub : SubmoduleInfo) :
    RunShape (fun st => processSubmodule fetch write subsO output_path sub st) := by
  intro st
  by_cases hinit : subsO.initialized sub.path = true
  case neg => simp [processSubmodule, hinit]
  case pos =>
    by_cases hval : subsO.validRepo sub.path = true
    case neg => simp [processSubmodule, hinit, hval]
    case pos =>
      cases hd : subsO.diffStream sub.path (sub.old_commit.getD sub.old_sha)
          (sub.new_commit.getD sub.new_sha) with
      | error msg => simp [processSubmodule, hinit, hval, hd]
      | ok stream =>
        have hs := processSubEntries_shape fetch write sub.path sub.old_commit
          sub.new_commit output_path (getDiffEntries stream)
        obtain ⟨R, hR⟩ : ∃ r, processSubEntries fetch write sub.path sub.old_commit
            sub.new_commit output_path (getDiffEntries stream) ⟨0, []⟩ = r := ⟨_, rfl⟩
        simp only [hR] at hs
        simp [processSubmodule, hinit, hval, hd, hs]

theorem processSubmodules_runShape (fetch : FetchOracle) (write : WriteOracle)
    (subsO : SubOracle) (output_path : String) :
    ∀ subs : List SubmoduleInfo,
    RunShape (fun st => processSubmodules fetch write subsO output_path subs st) := by
  intro subs
  induction subs with
  | nil =>
    intro st
    simp [processSubmodules]
  | cons sub rest ih =>
    intro st
    have h1 := processSubmodule_runShape fetch write subsO output_path sub
    obtain ⟨A, hA⟩ : ∃ r, processSubmodule fetch write subsO output_path sub ⟨0, []⟩ = r :=
      ⟨_, rfl⟩
    obtain ⟨B, hB⟩ : ∃ r, processSubmodules fetch write subsO output_path rest ⟨0, []⟩ = r :=
      ⟨_, rfl⟩
    have h1s : ∀ s, processSubmodule fetch write subsO output_path sub s =
        ({ copied_files := s.copied_files + A.1.copied_files,
           failed_files := s.failed_files ++ A.1.failed_files }, A.2) := by
      intro s
      have := h1 s
      simp only [hA] at this
      exact this
    have ihs : ∀ s, processSubmodules fetch write subsO output_path rest s =
        ({ copied_files := s.copied_files + B.1.copied_files,
           failed_files := s.failed_files ++ B.1.failed_files }, B.2) := by
      intro s
      have := ih s
      simp only [hB] at this
      exact this
    simp [processSubmodules, h1s, ihs, List.append_assoc, Nat.add_assoc]

theorem copyFilesWorker_runShape (env : WorkerEnv)
    (old_sha new_sha output_path folder_name : String) :
    RunShape (fun st => copyFilesWorker env old_sha new_sha output_path folder_name st) := by
  intro st
  by_cases hv : env.validRepo = true
  case neg => simp [copyFilesWorker, hv]
  case pos =>
    by_cases hp : env.prepOk = true
    case neg => simp [copyFilesWorker, hv, hp]
    case pos =>
      cases hd : env.diffStream with
      | error msg => simp [copyFilesWorker, hv, hp, hd]
      | ok stream =>
        have hF := processDiffFiles_runShape env.fetch env.write old_sha new_sha
          (output_path ++ "/" ++ folder_name) (getDiffEntries stream)
        have hG := processSubmodules_runShape env.fetch env.write env.subs
          (output_path ++ "/" ++ folder_name)
          (getSubmoduleInfo old_sha new_sha env.lsOld env.lsNew)
        have h := runShape_seq hF hG st
        simp only at h
        simpa [copyFilesWorker, hv, hp, hd] using h

/-- C1: per diff entry, the materializer's fetch requests follow the
status table: Added requests only the new side (new_path at the new
revision); Deleted only the old side (old_path at the old revision);
Modified/TypeChanged and Renamed/Copied request the old side from
old_path and then — whenever the old-side retrieval does not raise —
the new side from new_path. -/
theorem claim_c1_fetch_table (fetch : FetchOracle) (write : WriteOracle)
    (old_sha new_sha output_path : String) (e : DiffEntry) (st : FMState) :
    (e.status = 'A' →
      fetchesOf (processEntry fetch write old_sha new_sha output_path e st).2 =
        [⟨.parent, some new_sha, e.new_path, .new⟩]) ∧
    (e.status = 'D' →
      fetchesOf (processEntry fetch write old_sha new_sha output_path e st).2 =
        [⟨.parent, some old_sha, e.old_path, .old⟩]) ∧
    ((e.status = 'M' ∨ e.status = 'T' ∨ e.status = 'R' ∨ e.status = 'C') →
      (∃ bs, fetchContent fetch .parent (some old_sha) e.old_path = .ok bs) →
      fetchesOf (processEntry fetch write old_sha new_sha output_path e st).2 =
        [⟨.parent, some old_sha, e.old_path, .old⟩,
         ⟨.parent, some new_sha, e.new_path, .new⟩]) := by
  refine ⟨?_, ?_, ?_⟩
  · intro h
    cases hf : fetchContent fetch .parent (some new_sha) e.new_path with
    | error msg =>
      simp [processEntry, h, hf, fetchesOf, copy_file_with_structure, copy_file_to_directory]
    | ok bs =>
      simp [processEntry, h, hf, fetchesOf, copy_file_with_structure, copy_file_to_directory]
  · intro h
    cases hf : fetchContent fetch .parent (some old_sha) e.old_path with
    | error msg =>
      simp [processEntry, h, hf, fetchesOf, copy_file_with_structure, copy_file_to_directory]
    | ok bs =>
      simp [processEntry, h, hf, fetchesOf, copy_file_with_structure, copy_file_to_directory]
  · rintro h ⟨bs, hok⟩
    cases hf2 : fetchContent fetch .parent (some new_sha) e.new_path with
    | error msg =>
      rcases h with h | h | h | h <;>
        simp [processEntry, h, hok, hf2, fetchesOf, copy_file_with_structure,
          copy_file_to_directory]
    | ok bs2 =>
      rcases h with h | h | h | h <;>
        simp [processEntry, h, hok, hf2, fetchesOf, copy_file_with_structure,
          copy_file_to_directory]

/-- Witness for C1 at a Modified entry whose retrievals succeed. -/
theorem claim_c1_fetch_table_witness :
    fetchesOf (processEntry (fun _ _ _ => .ok [7]) (fun _ => none) "o" "n" "out"
      ⟨'M', "f.txt", "f.txt", 0⟩ ⟨0, []⟩).2 =
      [⟨.parent, some "o", "f.txt", .old⟩, ⟨.parent, some "n", "f.txt", .new⟩] :=
  (claim_c1_fetch_table (fun _ _ _ => .ok [7]) (fun _ => none) "o" "n" "out"
    ⟨'M', "f.txt", "f.txt", 0⟩ ⟨0, []⟩).2.2 (Or.inl rfl) ⟨[7], rfl⟩

/-- C2 counterexample: a failing nested retrieval inside a submodule
aborts that submodule's remaining entries and is not recorded in the
failed list.  With nested diff `M\0a\0M\0b\0` and a retrieval that
fails on `a`, the subsequent entry `b` is never fetched and
`failed_files` stays empty — contrary to the claim that a failing
retrieval for one DiffEntry never prevents subsequent entries of the
same run from being processed and is recorded with its path and cause. -/
theorem claim_c2_counterexample :
    (let r := processSubmodule
        (fun _ _ path => if path = "a" then .error "boom" else .ok [1])
        (fun _ => none)
        ⟨fun _ => true, fun _ => true, fun _ _ _ => .ok "M\x00a\x00M\x00b\x00"⟩
        "out" ⟨"s", "po", "pn", some "oc", some "nc"⟩ ⟨0, []⟩
     getDiffEntries "M\x00a\x00M\x00b\x00" = [⟨'M', "a", "a", 0⟩, ⟨'M', "b", "b", 0⟩] ∧
       (∀ req ∈ fetchesOf r.2, req.path ≠ "b") ∧ r.1.failed_files = []) := by
  decide

/-- C2 amended: for TOP-LEVEL diff entries the guarantee holds: every
entry is processed regardless of earlier failures (the per-entry marks
equal the input list), a raising retrieval is recorded in the failed
list as `(new_path or old_path, cause)`, and succeeded_count plus the
failed-list length equals the number of retrievals attempted (for a run
starting from fresh statistics); the submodule loop likewise processes
every submodule.  (A failing NESTED retrieval, however, aborts the rest
of that one submodule without a failed-list record — see the
counterexample.) -/
theorem claim_c2_failure_isolation (fetch : FetchOracle) (write : WriteOracle)
    (old_sha new_sha output_path : String) (entries : List DiffEntry) (e : DiffEntry)
    (st : FMState) (subsO : SubOracle) (subs : List SubmoduleInfo) :
    marksOf (processDiffFiles fetch write old_sha new_sha output_path entries st).2 =
      entries.map (fun x => x.new_path) ∧
    ((processDiffFiles fetch write old_sha new_sha output_path entries st).1.copied_files +
      (processDiffFiles fetch write old_sha new_sha output_path entries st).1.failed_files.length =
      st.copied_files + st.failed_files.length +
        (fetchesOf (processDiffFiles fetch write old_sha new_sha output_path entries st).2).length) ∧
    (st.copied_files = 0 → st.failed_files = [] →
      (processDiffFiles fetch write old_sha new_sha output_path entries st).1.copied_files +
        (processDiffFiles fetch write old_sha new_sha output_path entries st).1.failed_files.length =
      (fetchesOf (processDiffFiles fetch write old_sha new_sha output_path entries st).2).length) ∧
    ((e.status = 'M' ∨ e.status = 'T' ∨ e.status = 'R' ∨ e.status = 'C') →
      ∀ msg, fetchContent fetch .parent (some old_sha) e.old_path = .error msg →
        (processEntry fetch write old_sha new_sha output_path e st).1.failed_files =
          st.failed_files ++ [(entryName e, msg)]) ∧
    (e.status = 'A' →
      ∀ msg, fetchContent fetch .parent (some new_sha) e.new_path = .error msg →
        (processEntry fetch write old_sha new_sha output_path e st).1.failed_files =
          st.failed_files ++ [(entryName e, msg)]) ∧
    (e.status = 'D' →
      ∀ msg, fetchContent fetch .parent (some old_sha) e.old_path = .error msg →
        (processEntry fetch write old_sha new_sha output_path e st).1.failed_files =
          st.failed_files ++ [(entryName e, msg)]) ∧
    subMarksOf (processSubmodules fetch write subsO output_path subs st).2 =
      subs.map (fun s => s.path) := by
  refine ⟨processDiffFiles_marks fetch write old_sha new_sha output_path entries st,
    processDiffFiles_count fetch write old_sha new_sha output_path entries st,
    ?_,
    fun h => ((processEntry_error_recorded fetch write old_sha new_sha output_path e st).1 h).1,
    (processEntry_error_recorded fetch write old_sha new_sha output_path e st).2.1,
    (processEntry_error_recorded fetch write old_sha new_sha output_path e st).2.2,
    processSubmodules_subMarks fetch write subsO output_path subs st⟩
  intro h0 hnil
  have := processDiffFiles_count fetch write old_sha new_sha output_path entries st
  rw [h0, hnil] at this
  simpa using this

/-- Witness for C2 amended: one failing and one succeeding entry; both
are processed and the counters balance the attempted retrievals. -/
theorem claim_c2_failure_isolation_witness :
    (let fetch : FetchOracle := fun _ _ path => if path = "a" then .error "boom" else .ok [1]
     let entries := getDiffEntries "M\x00a\x00D\x00b\x00"
     let r := processDiffFiles fetch (fun _ => none) "o" "n" "out" entries ⟨0, []⟩
     marksOf r.2 = ["a", "b"] ∧
       r.1.copied_files + r.1.failed_files.length = (fetchesOf r.2).length) := by
  intro fetch entries r
  constructor
  · have h := (claim_c2_failure_isolation fetch (fun _ => none) "o" "n" "out" entries
      ⟨'M', "a", "a", 0⟩ ⟨0, []⟩ ⟨fun _ => true, fun _ => true, fun _ _ _ => .ok ""⟩ []).1
    rw [h]
    decide
  · exact (claim_c2_failure_isolation fetch (fun _ => none) "o" "n" "out" entries
      ⟨'M', "a", "a", 0⟩ ⟨0, []⟩ ⟨fun _ => true, fun _ => true, fun _ _ _ => .ok ""⟩ []).2.2.1
      rfl rfl

/-- C5 counterexample: a nested Renamed entry (`R100\0a\0b\0`) is parsed
but `_process_submodule` has no rename/copy branch, so NOTHING is
fetched or written for it — contrary to the claim that the same
per-status table (Renamed/Copied: both sides) is applied to every
nested entry. -/
theorem claim_c5_counterexample :
    (let r := processSubmodule
        (fun _ _ _ => .ok [1])
        (fun _ => none)
        ⟨fun _ => true, fun _ => true, fun _ _ _ => .ok "R100\x00a\x00b\x00"⟩
        "out" ⟨"s", "po", "pn", some "oc", some "nc"⟩ ⟨0, []⟩
     getDiffEntries "R100\x00a\x00b\x00" = [⟨'R', "a", "b", 100⟩] ∧
       fetchesOf r.2 = [] ∧ writesOf r.2 = []) := by
  decide

/-- C5 amended: for an initialized, valid submodule whose nested
retrievals all succeed, the per-status table is applied to every nested
Modified/TypeChanged, Added and Deleted entry — with every path
remapped to `submodule.path ++ "/" ++ nested_path` on both sides and
every fetch issued against the submodule's own store — while nested
Renamed/Copied entries (and unknown statuses) are skipped entirely. -/
theorem claim_c5_nested_table (fetch : FetchOracle) (write : WriteOracle)
    (subsO : SubOracle) (output_path stream : String) (sub : SubmoduleInfo) (st : FMState)
    (hinit : subsO.initialized sub.path = true)
    (hvalid : subsO.validRepo sub.path = true)
    (hdiff : subsO.diffStream sub.path (sub.old_commit.getD sub.old_sha)
      (sub.new_commit.getD sub.new_sha) = .ok stream)
    (hok : ∀ sha p, ∃ bs, fetchContent fetch (.sub sub.path) sha p = .ok bs) :
    (processSubmodule fetch write subsO output_path sub st).2 =
      (getDiffEntries stream).flatMap (nestedEventTable sub) := by
  simp [processSubmodule, hinit, hvalid, hdiff,
    processSubEntries_table fetch write sub output_path hok]

/-- Witness for C5 amended at a nested Modified entry. -/
theorem claim_c5_nested_table_witness :
    (processSubmodule (fun _ _ _ => .ok [2]) (fun _ => none)
      ⟨fun _ => true, fun _ => true, fun _ _ _ => .ok "M\x00x\x00"⟩
      "out" ⟨"s", "po", "pn", some "oc", some "nc"⟩ ⟨0, []⟩).2 =
      [.fetch ⟨.sub "s", some "oc", "x", .old⟩, .fileWrite "old" "s/x",
       .fetch ⟨.sub "s", some "nc", "x", .new⟩, .fileWrite "new" "s/x"] := by
  have h := claim_c5_nested_table (fun _ _ _ => .ok [2]) (fun _ => none)
    ⟨fun _ => true, fun _ => true, fun _ _ _ => .ok "M\x00x\x00"⟩
    "out" "M\x00x\x00" ⟨"s", "po", "pn", some "oc", some "nc"⟩ ⟨0, []⟩
    rfl rfl rfl (fun sha p => ⟨[2], rfl⟩)
  rw [h]
  decide

/-- C8 counterexample: the `FileManager` statistics object is created
once with the window and never reset, so a second run (same
environment, one successfully extracted file per run) starts from
`copied_files = 1` and ends reporting 2 — not the 1 file that second
run actually extracted. -/
theorem claim_c8_counterexample :
    (let env : WorkerEnv := ⟨true, true, .ok "A\x00f\x00", .ok "", .ok "",
        fun _ _ _ => .ok [1], fun _ => none,
        ⟨fun _ => false, fun _ => false, fun _ _ _ => .error ""⟩⟩
     let r1 := copyFilesWorker env "o" "n" "out" "d" ⟨0, []⟩
     let r2 := copyFilesWorker env "o" "n" "out" "d" r1.1
     r1.1.copied_files = 1 ∧ r2.1.copied_files = 2 ∧ r2.1.copied_files ≠ r1.1.copied_files) := by
  decide

/-- C8 amended: a worker run never resets the statistics it starts
from: from any starting state the run ends with exactly the starting
counters plus the run's own (state-independent) contribution, and the
run's observable behaviour does not depend on the starting counters.
End-of-run statistics therefore include all earlier runs' files. -/
theorem claim_c8_run_accumulation (env : WorkerEnv)
    (old_sha new_sha output_path folder_name : String) (st : FMState) :
    (copyFilesWorker env old_sha new_sha output_path folder_name st).1.copied_files =
      st.copied_files +
        (copyFilesWorker env old_sha new_sha output_path folder_name ⟨0, []⟩).1.copied_files ∧
    (copyFilesWorker env old_sha new_sha output_path folder_name st).1.failed_files =
      st.failed_files ++
        (copyFilesWorker env old_sha new_sha output_path folder_name ⟨0, []⟩).1.failed_files ∧
    (copyFilesWorker env old_sha new_sha output_path folder_name st).2 =
      (copyFilesWorker env old_sha new_sha output_path folder_name ⟨0, []⟩).2 := by
  have h := copyFilesWorker_runShape env old_sha new_sha output_path folder_name st
  simp only at h
  rw [h]
  exact ⟨rfl, rfl, rfl⟩

end GitDiffExporter
